import Mathlib

/-!
Formal model of the Kelly-mechanism event-driven simulator
(`config.py`, `core_logic.py`, `simulator.py`).

Part 1 models the market mathematics of `core_logic.py` over the real
numbers: Python floats are modelled as exact reals, `math.sqrt` is
`Real.sqrt` and `math.log` is `Real.log`.

Part 2 (further below) models the simulation engine of `simulator.py`
over the rationals, so that concrete runs can be evaluated by `decide`.
-/

namespace Kelly

/-- `BASE_CONFIG["EPSILON"]` from `config.py` (`1e-3`): the module-level
constant that `core_logic.best_response` imports and uses both as the
price floor and as the bid floor. -/
def EPSILON_BASE : ℚ := 1 / 1000

/-- The price floor applied at the top of `best_response`:
`if lam <= 0: lam = BASE_CONFIG['EPSILON']`. -/
noncomputable def pricedLam (lam : ℝ) : ℝ := if lam ≤ 0 then (EPSILON_BASE : ℝ) else lam

/-- `core_logic.best_response(a, s_minus, lam, alpha)`: the closed-form
best-response bid.  `alpha` is the integer fairness exponent from the
scenario configs; any value outside `{0, 1, 2}` raises `ValueError`,
modelled as `Except.error`. -/
noncomputable def best_response (a s_minus lam : ℝ) (alpha : ℤ) : Except String ℝ :=
  let lam2 := pricedLam lam
  if alpha = 0 then
    Except.ok (max (EPSILON_BASE : ℝ) (Real.sqrt (max (a * s_minus / lam2) 0) - s_minus))
  else if alpha = 1 then
    Except.ok (max (EPSILON_BASE : ℝ)
      ((-s_minus + Real.sqrt (s_minus ^ 2 + 4 * a * s_minus / lam2)) / 2))
  else if alpha = 2 then
    Except.ok (max (EPSILON_BASE : ℝ) (Real.sqrt (max (a * s_minus / lam2) 0)))
  else Except.error "Unsupported alpha"

/-- `core_logic.utility(a, x, lam, z, alpha)`: the alpha-fair payoff
(value minus linear cost).  The `x < 1e-9` branch is the near-zero
allocation guard of the source; for `alpha = 1` it evaluates
`a * math.log(1e-9)`, otherwise `max(a * 1e-9 ** (1 - alpha) / (1 - alpha), -1e9)`. -/
noncomputable def utility (a x lam z : ℝ) (alpha : ℤ) : ℝ :=
  let val :=
    if x < 1 / 10 ^ 9 then
      if alpha = 1 then a * Real.log (1 / 10 ^ 9)
      else max (a * (1 / 10 ^ 9 : ℝ) ^ (1 - alpha) / (1 - (alpha : ℝ))) (-(10 ^ 9))
    else
      if alpha = 1 then a * Real.log x
      else a * x ^ (1 - alpha) / (1 - (alpha : ℝ))
  val - lam * z

/-- Model of `math.sqrt` for the rational-valued engine: exact on
perfect squares of rationals, `0` elsewhere. -/
def sqrtQ (q : ℚ) : ℚ :=
  let n := Int.toNat q.num
  let a := Nat.sqrt n
  let b := Nat.sqrt q.den
  if 0 ≤ q.num ∧ a * a = n ∧ b * b = q.den then (a : ℚ) / (b : ℚ) else 0

def logQ (_ : ℚ) : ℚ := 0

/-- The two transcendental library functions the engine calls. -/
structure MathFns where
  sqrt : ℚ → ℚ
  log : ℚ → ℚ

def baseFns : MathFns := ⟨sqrtQ, logQ⟩

/-- The configuration dictionary: `BASE_CONFIG` of `config.py` plus the
per-scenario `ALPHA` (the `LABEL` strings are presentation only).  The
two rate fields appear in the source only as arguments of the modelled
`random.expovariate` calls. -/
structure Config where
  PLAYER_ARRIVAL_RATE : ℚ
  PLAYER_MEAN_STAY_TIME : ℚ
  PLAYER_DEPARTURE_RATE : ℚ
  SIM_MAX_TIME : ℚ
  SEED : ℤ
  VERBOSE : Bool
  A_MIN : ℚ
  A_MAX : ℚ
  BUDGET : ℚ
  BID_REVISION_DELAY_MIN : ℚ
  BID_REVISION_DELAY_MAX : ℚ
  DELTA : ℚ
  EPSILON : ℚ
  DYNAMIC_PRICING : Bool
  PRICE_ADJUST_INTERVAL : ℚ
  INITIAL_PRICE : ℚ
  TARGET_UTILIZATION : ℚ
  K_PRICE : ℚ
  MIN_PRICE : ℚ
  MAX_PRICE : ℚ
  ALPHA : ℤ
deriving DecidableEq

/-- The values of `BASE_CONFIG` in `config.py`, with the `α = 0`
scenario's exponent. -/
def baseConfig : Config where
  PLAYER_ARRIVAL_RATE := 1
  PLAYER_MEAN_STAY_TIME := 20
  PLAYER_DEPARTURE_RATE := 1 / 20
  SIM_MAX_TIME := 1000
  SEED := 42
  VERBOSE := false
  A_MIN := 100
  A_MAX := 400
  BUDGET := 4000
  BID_REVISION_DELAY_MIN := 1 / 10
  BID_REVISION_DELAY_MAX := 1 / 2
  DELTA := 1 / 10
  EPSILON := 1 / 1000
  DYNAMIC_PRICING := true
  PRICE_ADJUST_INTERVAL := 5
  INITIAL_PRICE := 1
  TARGET_UTILIZATION := 3 / 4
  K_PRICE := 1 / 4
  MIN_PRICE := 1 / 20
  MAX_PRICE := 50
  ALPHA := 0

/-- Structural power on `ℚ` (the `Monoid.npow` route through the
algebra instances does not reduce in the kernel); `powNat_eq` below
proves it equal to `x ^ n`. -/
def powNat (x : ℚ) : ℕ → ℚ
  | 0 => 1
  | n + 1 => powNat x n * x

/-- Structural integer power on `ℚ`, the model of Python's `**` with an
integer exponent; `powInt_eq` below proves it equal to `x ^ n`. -/
def powInt (x : ℚ) : ℤ → ℚ
  | Int.ofNat n => powNat x n
  | Int.negSucc n => (powNat x (n + 1))⁻¹

/-- `core_logic.best_response` as called by the engine, over `ℚ`, with
the square root supplied by `F`. -/
def best_responseQ (F : MathFns) (a s_minus lam : ℚ) (alpha : ℤ) : Except String ℚ :=
  let lam2 := if lam ≤ 0 then EPSILON_BASE else lam
  if alpha = 0 then
    Except.ok (max EPSILON_BASE (F.sqrt (max (a * s_minus / lam2) 0) - s_minus))
  else if alpha = 1 then
    Except.ok (max EPSILON_BASE
      ((-s_minus + F.sqrt (powNat s_minus 2 + 4 * a * s_minus / lam2)) / 2))
  else if alpha = 2 then
    Except.ok (max EPSILON_BASE (F.sqrt (max (a * s_minus / lam2) 0)))
  else Except.error "Unsupported alpha"

/-- `core_logic.utility` as called by the engine, over `ℚ`, with the
logarithm supplied by `F`. -/
def utilityQ (F : MathFns) (a x lam z : ℚ) (alpha : ℤ) : ℚ :=
  let val :=
    if x < 1 / 1000000000 then
      if alpha = 1 then a * F.log (1 / 1000000000)
      else max (a * powInt (1 / 1000000000) (1 - alpha) / (1 - (alpha : ℚ)))
        (-1000000000)
    else
      if alpha = 1 then a * F.log x
      else a * powInt x (1 - alpha) / (1 - (alpha : ℚ))
  val - lam * z

/-- The four event-type strings pushed by `simulator.py`. -/
inductive EventType where
  | PLAYER_ARRIVAL
  | PLAYER_DEPARTURE
  | PLAYER_BID_REVISION
  | PRICE_ADJUSTMENT
deriving DecidableEq

def typeStr : EventType → String
  | .PLAYER_ARRIVAL => "PLAYER_ARRIVAL"
  | .PLAYER_DEPARTURE => "PLAYER_DEPARTURE"
  | .PLAYER_BID_REVISION => "PLAYER_BID_REVISION"
  | .PRICE_ADJUSTMENT => "PRICE_ADJUSTMENT"

/-- Rank of the event-type string in Python string order; the theorem
for the event-ordering claim proves `typeRank t < typeRank u ↔
typeStr t < typeStr u`. -/
def typeRank : EventType → ℕ
  | .PLAYER_ARRIVAL => 0
  | .PLAYER_BID_REVISION => 1
  | .PLAYER_DEPARTURE => 2
  | .PRICE_ADJUSTMENT => 3

/-- A queue entry `(event_time, event_type, data)`; the payload dict is
either `{}` (`none`) or `{'pid': n}` (`some n`). -/
structure Event where
  time : ℚ
  etype : EventType
  pid : Option ℕ
deriving DecidableEq

/-- The payload component of the totalised comparison key (Python
itself raises `TypeError` before ever ordering two distinct dicts; see
`pyLt`). -/
def pidKey : Option ℕ → ℕ ×ₗ ℕ
  | none => toLex (0, 0)
  | some n => toLex (1, n)

/-- The comparison key of a queue entry: timestamp, then event-type
string rank, then payload. -/
def key (e : Event) : ℚ ×ₗ (ℕ ×ₗ (ℕ ×ₗ ℕ)) :=
  toLex (e.time, toLex (typeRank e.etype, pidKey e.pid))

/-- Python's comparison of two queue entries as performed inside
`heapq`: tuples compare lexicographically, strings lexicographically;
payload dicts support `==` but raise `TypeError` on `<`, modelled as
`none`. -/
def pyLt (e₁ e₂ : Event) : Option Bool :=
  if e₁.time ≠ e₂.time then some (decide (e₁.time < e₂.time))
  else if typeStr e₁.etype ≠ typeStr e₂.etype then
    some (decide (typeStr e₁.etype < typeStr e₂.etype))
  else if e₁.pid = e₂.pid then some false
  else none

/-- Model of the `heapq` priority queue: `heappop` removes the least
entry under the key order (the leftmost one among equals); the queue is
kept as the list of pushed events. -/
def popMin : List Event → Option (Event × List Event)
  | [] => none
  | a :: l =>
    match popMin l with
    | none => some (a, [])
    | some (m, r) => if key m < key a then some (m, a :: r) else some (a, l)

/-- One active player dict, as created by `handle_player_arrival`. -/
structure Player where
  a : ℚ
  bid : ℚ
  arrival_time : ℚ
  integral_cost : ℚ
  integral_allocation : ℚ
  last_update_time : ℚ
deriving DecidableEq

/-- One entry of `departed_player_data`. -/
structure DepartedRecord where
  pid : ℕ
  a_val : ℚ
  time_in_system : ℚ
  total_cost : ℚ
  avg_allocation_pct : ℚ
  final_utility : ℚ
deriving DecidableEq

/-- The state owned by `EventDrivenSimulator`.  `rng_index` is the
position in the pseudorandom draw stream (the global `random` state)
and `dispatch_log` is a ghost trace of the events popped and dispatched
by the main loop, used to state ordering properties; neither feeds back
into the market state. -/
structure SimState where
  config : Config
  event_queue : List Event
  current_time : ℚ
  next_pid : ℕ
  players : List (ℕ × Player)
  current_price : ℚ
  stats_player_count : List (ℚ × ℚ)
  stats_utilization : List (ℚ × ℚ)
  stats_avg_bid : List (ℚ × ℚ)
  stats_social_welfare : List (ℚ × ℚ)
  stats_avg_utility_timeseries : List (ℚ × ℚ)
  stats_price : List (ℚ × ℚ)
  departed_player_data : List DepartedRecord
  last_stats_update_time : ℚ
  integral_player_count : ℚ
  integral_utilization : ℚ
  integral_avg_bid : ℚ
  integral_social_welfare : ℚ
  integral_avg_utility : ℚ
  completed_player_count : ℕ
  rng_index : ℕ
  dispatch_log : List (ℚ × EventType)
deriving DecidableEq

/-- `EventDrivenSimulator.__init__(config)`. -/
def initialState (cfg : Config) : SimState where
  config := cfg
  event_queue := []
  current_time := 0
  next_pid := 0
  players := []
  current_price := cfg.INITIAL_PRICE
  stats_player_count := []
  stats_utilization := []
  stats_avg_bid := []
  stats_social_welfare := []
  stats_avg_utility_timeseries := []
  stats_price := []
  departed_player_data := []
  last_stats_update_time := 0
  integral_player_count := 0
  integral_utilization := 0
  integral_avg_bid := 0
  integral_social_welfare := 0
  integral_avg_utility := 0
  completed_player_count := 0
  rng_index := 0
  dispatch_log := []

/-- `schedule_event`: `heapq.heappush(self.event_queue, (event_time,
event_type, data))` — it performs no validation of `event_time` against
the current clock. -/
def schedule_event (s : SimState) (event_time : ℚ) (event_type : EventType)
    (data : Option ℕ) : SimState :=
  { s with event_queue := s.event_queue ++ [⟨event_time, event_type, data⟩] }

/-- `get_total_bid`. -/
def get_total_bid (s : SimState) : ℚ := (s.players.map fun q => q.2.bid).sum

/-- `get_utilization`. -/
def get_utilization (s : SimState) (total_bid : ℚ) : ℚ :=
  if total_bid + s.config.DELTA ≤ 0 then 0
  else total_bid / (total_bid + s.config.DELTA)

/-- One pseudorandom draw: the next value of the seed-determined
variate stream. -/
def nextDraw (draws : ℕ → ℚ) (s : SimState) : ℚ × SimState :=
  (draws s.rng_index, { s with rng_index := s.rng_index + 1 })

/-- `pid in self.players` / `self.players[pid]`. -/
def lookupPlayer (pid : ℕ) (s : SimState) : Option Player :=
  (s.players.find? fun q => q.1 == pid).map fun q => q.2

/-- `self.players.pop(pid)`. -/
def erasePlayer (pid : ℕ) (ps : List (ℕ × Player)) : List (ℕ × Player) :=
  ps.filter fun q => q.1 != pid

/-- `update_player_integrals`. -/
def update_player_integrals (s : SimState) : SimState :=
  let time_delta := s.current_time - s.last_stats_update_time
  if time_delta ≤ 0 then s
  else
    let s_total := get_total_bid s + s.config.DELTA
    { s with players := s.players.map fun q =>
        let p := q.2
        let cost_this := p.bid * s.current_price * time_delta
        let alloc_this :=
          if 0 < s_total ∧ 0 < p.bid then p.bid / s_total * time_delta else 0
        (q.1, { p with
          integral_cost := p.integral_cost + cost_this
          integral_allocation := p.integral_allocation + alloc_this
          last_update_time := s.current_time }) }

/-- `update_stats`. -/
def update_stats (F : MathFns) (s : SimState) : SimState :=
  let time_delta := s.current_time - s.last_stats_update_time
  if time_delta ≤ 0 then s
  else
    let n : ℕ := s.players.length
    let tb := get_total_bid s
    let current_utilization := get_utilization s tb
    let current_avg_bid := if 0 < n then tb / (n : ℚ) else 0
    let s_total := tb + s.config.DELTA
    let current_social_welfare :=
      if 0 < n ∧ 0 < s_total then
        (s.players.map fun q =>
          if q.2.bid < s.config.EPSILON then 0
          else utilityQ F q.2.a (q.2.bid / s_total) s.current_price q.2.bid
            s.config.ALPHA).sum
      else 0
    let current_avg_utility := if 0 < n then current_social_welfare / (n : ℚ) else 0
    { s with
      integral_player_count := s.integral_player_count + (n : ℚ) * time_delta
      integral_utilization := s.integral_utilization + current_utilization * time_delta
      integral_avg_bid := s.integral_avg_bid + current_avg_bid * time_delta
      integral_social_welfare :=
        s.integral_social_welfare + current_social_welfare * time_delta
      integral_avg_utility := s.integral_avg_utility + current_avg_utility * time_delta
      stats_player_count := s.stats_player_count ++ [(s.current_time, (n : ℚ))]
      stats_utilization := s.stats_utilization ++ [(s.current_time, current_utilization)]
      stats_avg_bid := s.stats_avg_bid ++ [(s.current_time, current_avg_bid)]
      stats_social_welfare :=
        s.stats_social_welfare ++ [(s.current_time, current_social_welfare)]
      stats_avg_utility_timeseries :=
        s.stats_avg_utility_timeseries ++ [(s.current_time, current_avg_utility)]
      stats_price := s.stats_price ++ [(s.current_time, s.current_price)]
      last_stats_update_time := s.current_time }

/-- `notify_all_players_to_revise`: schedule one bid revision per
active player after an independently drawn thinking delay
(`random.uniform(BID_REVISION_DELAY_MIN, BID_REVISION_DELAY_MAX)`). -/
def notify_all_players_to_revise (draws : ℕ → ℚ) (s : SimState) : SimState :=
  s.players.foldl (fun st q =>
    let (d, st2) := nextDraw draws st
    schedule_event st2 (st2.current_time + d) .PLAYER_BID_REVISION (some q.1)) s

/-- `handle_player_arrival`.  The three draws are `random.uniform(A_MIN,
A_MAX)` for the valuation, `random.expovariate(PLAYER_DEPARTURE_RATE)`
for the sojourn and `random.expovariate(PLAYER_ARRIVAL_RATE)` for the
next inter-arrival gap, in source order. -/
def handle_player_arrival (draws : ℕ → ℚ) (s : SimState) : SimState :=
  let pid := s.next_pid
  let s := { s with next_pid := s.next_pid + 1 }
  let (a_val, s) := nextDraw draws s
  let s := { s with players := s.players ++
    [(pid, { a := a_val, bid := 0, arrival_time := s.current_time,
             integral_cost := 0, integral_allocation := 0,
             last_update_time := s.current_time })] }
  let (stay_duration, s) := nextDraw draws s
  let s := schedule_event s (s.current_time + stay_duration) .PLAYER_DEPARTURE (some pid)
  let (gap, s) := nextDraw draws s
  let s := schedule_event s (s.current_time + gap) .PLAYER_ARRIVAL none
  notify_all_players_to_revise draws s

/-- `handle_player_departure`.  A missing `'pid'` key would raise
(`none`); an absent player is a silent no-op.  The handler reads the
player after `update_player_integrals`, which preserves the key set, so
the inner `none` branch is unreachable. -/
def handle_player_departure (F : MathFns) (draws : ℕ → ℚ) (s : SimState)
    (data : Option ℕ) : Option SimState :=
  match data with
  | none => none
  | some pid =>
    match lookupPlayer pid s with
    | none => some s
    | some _ =>
      let s := update_player_integrals s
      match lookupPlayer pid s with
      | none => some s
      | some player =>
        let final_utility :=
          if s.config.EPSILON ≤ player.bid then
            let current_total_bid := get_total_bid s
            let s_total := current_total_bid + s.config.DELTA
            if 0 < s_total then
              utilityQ F player.a (player.bid / s_total) s.current_price player.bid
                s.config.ALPHA
            else 0
          else 0
        let time_in_system := s.current_time - player.arrival_time
        let avg_allocation :=
          if 0 < time_in_system then player.integral_allocation / time_in_system else 0
        let s := { s with
          departed_player_data := s.departed_player_data ++
            [{ pid := pid, a_val := player.a, time_in_system := time_in_system,
               total_cost := player.integral_cost,
               avg_allocation_pct := avg_allocation * 100,
               final_utility := final_utility }]
          completed_player_count := s.completed_player_count + 1
          players := erasePlayer pid s.players }
        some (notify_all_players_to_revise draws s)

/-- `handle_player_bid_revision`.  An absent player is a silent no-op;
an unsupported `ALPHA` raises `ValueError` out of `best_response`
(`none`). -/
def handle_player_bid_revision (F : MathFns) (s : SimState) (data : Option ℕ) :
    Option SimState :=
  match data with
  | none => none
  | some pid =>
    match lookupPlayer pid s with
    | none => some s
    | some _ =>
      let s := update_player_integrals s
      match lookupPlayer pid s with
      | none => some s
      | some player =>
        let current_total_bid := get_total_bid s
        let s_minus := current_total_bid - player.bid + s.config.DELTA
        match best_responseQ F player.a s_minus s.current_price s.config.ALPHA with
        | Except.error _ => none
        | Except.ok br =>
          let new_bid := min br (s.config.BUDGET / s.current_price)
          some { s with players := s.players.map fun q =>
            if q.1 = pid then (q.1, { q.2 with bid := new_bid }) else q }

/-- `handle_price_adjustment`: proportional feedback, clamped into
`[MIN_PRICE, MAX_PRICE]`, then notify everyone and reschedule the next
adjustment unconditionally. -/
def handle_price_adjustment (draws : ℕ → ℚ) (s : SimState) : SimState :=
  let current_total_bid := get_total_bid s
  let util_now := get_utilization s current_total_bid
  let err := util_now - s.config.TARGET_UTILIZATION
  let k := s.config.K_PRICE
  let new_price := s.current_price * (1 + k * err)
  let s := { s with
    current_price := max s.config.MIN_PRICE (min s.config.MAX_PRICE new_price) }
  let s := notify_all_players_to_revise draws s
  schedule_event s (s.current_time + s.config.PRICE_ADJUST_INTERVAL) .PRICE_ADJUSTMENT none

/-- Step 5 of the main loop: dispatch on the event type. -/
def processEvent (F : MathFns) (draws : ℕ → ℚ) (e : Event) (s : SimState) :
    Option SimState :=
  match e.etype with
  | .PLAYER_ARRIVAL => some (handle_player_arrival draws s)
  | .PLAYER_DEPARTURE => handle_player_departure F draws s e.pid
  | .PLAYER_BID_REVISION => handle_player_bid_revision F s e.pid
  | .PRICE_ADJUSTMENT => some (handle_price_adjustment draws s)

/-- Step 4 of the loop body: advance the clock to the popped event's
timestamp, recording the dispatch in the ghost log. -/
def advanceClock (e : Event) (s : SimState) : SimState :=
  { s with current_time := e.time,
           dispatch_log := s.dispatch_log ++ [(e.time, e.etype)] }

/-- The main event loop of `run`, with an explicit iteration budget
`fuel` standing in for the unbounded `while`: `fuel = 0` stops early
with the state reached so far (so quantifying over `fuel` ranges over
every prefix of a run), and `none` models an uncaught exception from a
handler.  Note the source updates the statistics before advancing
`current_time` to the popped event's timestamp. -/
def simLoop (F : MathFns) (draws : ℕ → ℚ) : ℕ → SimState → Option SimState
  | 0, s => some s
  | fuel + 1, s =>
    match popMin s.event_queue with
    | none => some s
    | some (e, rest) =>
      if s.config.SIM_MAX_TIME < e.time then some { s with event_queue := rest }
      else
        (processEvent F draws e
          (advanceClock e (update_stats F
            (update_player_integrals { s with event_queue := rest })))).bind
          (simLoop F draws fuel)

/-- `EventDrivenSimulator.run()` after `__init__`.  `ambient` is the
position of the process-global pseudorandom generator before the run;
the first statement of `run` is `random.seed(self.config['SEED'])`,
which discards it and makes the draw stream `variates cfg.SEED` a
function of the configured seed alone.  After the loop a final
`update_stats` runs. -/
def run (F : MathFns) (ambient : ℕ) (variates : ℤ → ℕ → ℚ) (cfg : Config)
    (fuel : ℕ) : Option SimState :=
  let draws := variates cfg.SEED
  let s := { initialState cfg with rng_index := ambient }
  let s := { s with rng_index := 0 }
  let s := schedule_event s 0 .PLAYER_ARRIVAL none
  let s := if cfg.DYNAMIC_PRICING then
      schedule_event s cfg.PRICE_ADJUST_INTERVAL .PRICE_ADJUSTMENT none
    else s
  (simLoop F draws fuel s).map fun sEnd => update_stats F sEnd

/-- The dict returned by `get_summary_stats`. -/
structure SummaryStats where
  avg_player_count : ℚ
  avg_utilization : ℚ
  avg_bid : ℚ
  avg_social_welfare : ℚ
  avg_satisfaction : ℚ
  avg_utility_final : ℚ
  std_dev_utility : ℚ
deriving DecidableEq

/-- `get_summary_stats`; the empty dict returned when
`current_time == 0` is `none`.  `statistics.mean` and
`statistics.stdev` (sample standard deviation) are expanded. -/
def get_summary_stats (F : MathFns) (s : SimState) : Option SummaryStats :=
  if s.current_time = 0 then none
  else
    let final_utilities := s.departed_player_data.map fun r => r.final_utility
    let n : ℕ := final_utilities.length
    let avg_utility_final := if 0 < n then final_utilities.sum / (n : ℚ) else 0
    let std_dev_utility :=
      if 1 < n then
        F.sqrt ((final_utilities.map fun x => powNat (x - avg_utility_final) 2).sum /
          ((n : ℚ) - 1))
      else 0
    some { avg_player_count := s.integral_player_count / s.current_time
           avg_utilization := s.integral_utilization / s.current_time
           avg_bid := s.integral_avg_bid / s.current_time
           avg_social_welfare := s.integral_social_welfare / s.current_time
           avg_satisfaction := s.integral_avg_utility / s.current_time
           avg_utility_final := avg_utility_final
           std_dev_utility := std_dev_utility }

/-- Draw stream for the C1 run: the arrival at time 0 draws valuation
`0`, sojourn `10` (departure at time 10), inter-arrival gap `25` (next
arrival at 25, beyond the horizon 20), and a bid-revision thinking
delay of `1/4`. -/
def variatesC1 : ℤ → ℕ → ℚ := fun _ n => [0, 10, 25, 1/4].getD n 0

/-- `BASE_CONFIG` with dynamic pricing off, horizon 20 and `A_MIN = 0`
(so the drawn valuation 0 is in the configured range). -/
def cfgC1 : Config :=
  { baseConfig with DYNAMIC_PRICING := false, SIM_MAX_TIME := 20, A_MIN := 0, ALPHA := 0 }

/-- `BASE_CONFIG` with dynamic pricing off and a horizon of `1/10`,
short enough that the run ends before the arrived player's first bid
revision. -/
def cfgC6 : Config :=
  { baseConfig with DYNAMIC_PRICING := false, SIM_MAX_TIME := 1/10, A_MIN := 0 }

/-- The bid-revision events appended by `notify_all_players_to_revise`
when the draw stream stands at position `i`. -/
def revEvents (draws : ℕ → ℚ) (t : ℚ) : ℕ → List (ℕ × Player) → List Event
  | _, [] => []
  | i, q :: ps =>
    ⟨t + draws i, .PLAYER_BID_REVISION, some q.1⟩ :: revEvents draws t (i + 1) ps

/-- The price-bounds invariant of the market state: the current price
and every sample of the price time series lie within the configured
`[MIN_PRICE, MAX_PRICE]`. -/
def PriceInv (s : SimState) : Prop :=
  s.config.MIN_PRICE ≤ s.current_price ∧ s.current_price ≤ s.config.MAX_PRICE ∧
  ∀ p ∈ s.stats_price, s.config.MIN_PRICE ≤ p.2 ∧ p.2 ≤ s.config.MAX_PRICE

/-- The bid invariant that actually holds of the engine: an active
player's bid is exactly `0` (from arrival until its first processed
revision) or at least the configured floor. -/
def BidInv (s : SimState) : Prop :=
  ∀ q ∈ s.players, q.2.bid = 0 ∨ s.config.EPSILON ≤ q.2.bid

/-- Configuration facts under which the bid floor holds after every
revision (all hold of `BASE_CONFIG`). -/
def BidCfg (cfg : Config) : Prop :=
  cfg.EPSILON ≤ EPSILON_BASE ∧ 0 ≤ cfg.EPSILON ∧ 0 < cfg.MIN_PRICE ∧
  cfg.EPSILON * cfg.MAX_PRICE ≤ cfg.BUDGET

/-- The ordering invariant of the loop: every queued event is at or
after the clock, every dispatched timestamp is at or before the clock,
and the dispatched timestamps are nondecreasing. -/
def OrderInv (s : SimState) : Prop :=
  (∀ e ∈ s.event_queue, s.current_time ≤ e.time) ∧
  (∀ p ∈ s.dispatch_log, p.1 ≤ s.current_time) ∧
  List.Sorted (· ≤ ·) (s.dispatch_log.map Prod.fst)

/-- No dispatched event lies beyond the configured horizon. -/
def HorizonInv (s : SimState) : Prop :=
  ∀ p ∈ s.dispatch_log, p.1 ≤ s.config.SIM_MAX_TIME

/-- The state `run` enters its loop with: the initial state plus the
bootstrap arrival at time 0 and, under dynamic pricing, the first price
adjustment. -/
def startState (cfg : Config) : SimState :=
  let s := schedule_event (initialState cfg) 0 .PLAYER_ARRIVAL none
  if cfg.DYNAMIC_PRICING then
    schedule_event s cfg.PRICE_ADJUST_INTERVAL .PRICE_ADJUSTMENT none
  else s

/-!
All theorems and supporting lemmas.
-/

lemma pricedLam_pos (lam : ℝ) : 0 < pricedLam lam := by
  unfold pricedLam
  split_ifs with h
  · rw [EPSILON_BASE]; norm_num
  · exact not_le.mp h

/-- C3: for nonnegative valuation and competing bid, `best_response`
returns the claimed closed forms for `alpha ∈ {0, 1, 2}` (with the price
floored to the positive epsilon before use), fails with the
unsupported-exponent error for any other `alpha`, and every successful
result is floored to that same epsilon, hence `≥ epsilon > 0`. -/
theorem best_response_spec (a s_minus lam : ℝ) (ha : 0 ≤ a) (hs : 0 ≤ s_minus) :
    best_response a s_minus lam 0 =
      Except.ok (max (EPSILON_BASE : ℝ) (Real.sqrt (a * s_minus / pricedLam lam) - s_minus)) ∧
    (∃ z, best_response a s_minus lam 1 = Except.ok (max (EPSILON_BASE : ℝ) z) ∧
      z ^ 2 + s_minus * z - a * s_minus / pricedLam lam = 0 ∧ 0 ≤ z) ∧
    best_response a s_minus lam 2 =
      Except.ok (max (EPSILON_BASE : ℝ) (Real.sqrt (a * s_minus / pricedLam lam))) ∧
    (∀ alpha : ℤ, alpha ≠ 0 → alpha ≠ 1 → alpha ≠ 2 →
      best_response a s_minus lam alpha = Except.error "Unsupported alpha") ∧
    (0 < lam → pricedLam lam = lam) ∧
    (lam ≤ 0 → pricedLam lam = (EPSILON_BASE : ℝ)) ∧
    (∀ alpha : ℤ, ∀ r : ℝ, best_response a s_minus lam alpha = Except.ok r →
      (EPSILON_BASE : ℝ) ≤ r ∧ 0 < r) := by
  have hl : 0 < pricedLam lam := pricedLam_pos lam
  have hq : 0 ≤ a * s_minus / pricedLam lam := div_nonneg (mul_nonneg ha hs) hl.le
  have hmax : max (a * s_minus / pricedLam lam) 0 = a * s_minus / pricedLam lam :=
    max_eq_left hq
  have heps : (0 : ℝ) < (EPSILON_BASE : ℝ) := by rw [EPSILON_BASE]; norm_num
  have h4 : 0 ≤ 4 * a * s_minus := by nlinarith [mul_nonneg ha hs]
  have hdisc : 0 ≤ s_minus ^ 2 + 4 * a * s_minus / pricedLam lam :=
    add_nonneg (sq_nonneg _) (div_nonneg h4 hl.le)
  refine ⟨?_, ?_, ?_, ?_, ?_, ?_, ?_⟩
  · simp [best_response, hmax]
  · refine ⟨(-s_minus + Real.sqrt (s_minus ^ 2 + 4 * a * s_minus / pricedLam lam)) / 2,
      ?_, ?_, ?_⟩
    · simp [best_response]
    · have hD : Real.sqrt (s_minus ^ 2 + 4 * a * s_minus / pricedLam lam) ^ 2 =
          s_minus ^ 2 + 4 * a * s_minus / pricedLam lam := Real.sq_sqrt hdisc
      linear_combination hD / 4
    · have hmono : Real.sqrt (s_minus ^ 2) ≤
          Real.sqrt (s_minus ^ 2 + 4 * a * s_minus / pricedLam lam) :=
        Real.sqrt_le_sqrt (le_add_of_nonneg_right (div_nonneg h4 hl.le))
      rw [Real.sqrt_sq hs] at hmono
      linarith
  · simp [best_response, hmax]
  · intro alpha h0 h1 h2
    simp [best_response, h0, h1, h2]
  · intro hpos
    unfold pricedLam
    rw [if_neg (not_le.mpr hpos)]
  · intro hneg
    unfold pricedLam
    rw [if_pos hneg]
  · intro alpha r hr
    by_cases h0 : alpha = 0
    · subst h0
      simp [best_response] at hr
      subst hr
      exact ⟨le_max_left _ _, lt_of_lt_of_le heps (le_max_left _ _)⟩
    · by_cases h1 : alpha = 1
      · subst h1
        simp [best_response] at hr
        subst hr
        exact ⟨le_max_left _ _, lt_of_lt_of_le heps (le_max_left _ _)⟩
      · by_cases h2 : alpha = 2
        · subst h2
          simp [best_response] at hr
          subst hr
          exact ⟨le_max_left _ _, lt_of_lt_of_le heps (le_max_left _ _)⟩
        · simp [best_response, h0, h1, h2] at hr

theorem best_response_spec_witness :
    (0 : ℝ) ≤ 1 ∧
    best_response 1 1 1 0 =
      Except.ok (max (EPSILON_BASE : ℝ) (Real.sqrt (1 * 1 / pricedLam 1) - 1)) :=
  ⟨by norm_num, (best_response_spec 1 1 1 (by norm_num) (by norm_num)).1⟩

/-- C4 counterexample: the near-zero-allocation fallback of `utility` is
not one shared finite sentinel.  At allocation `0` the value term is the
tiny positive `a * 1e-9` for `alpha = 0`, the capped `-1e9` for
`alpha = 2`, and the valuation-dependent `a * ln(1e-9)` for `alpha = 1`
(so doubling the valuation changes it). -/
theorem utility_penalty_not_uniform :
    utility 1 0 0 0 0 = 1 / 10 ^ 9 ∧
    0 < utility 1 0 0 0 0 ∧
    utility 1 0 0 0 2 = -(10 ^ 9) ∧
    utility 2 0 0 0 1 ≠ utility 1 0 0 0 1 := by
  refine ⟨?_, ?_, ?_, ?_⟩
  · norm_num [utility]
  · norm_num [utility]
  · norm_num [utility]
  · simp only [utility]
    norm_num

/-- C4 (amended): `utility` returns the alpha-fair value of the
allocation minus the linear cost `lam * z`; for allocations `≥ 1e-9` the
value is `a * ln x` when `alpha = 1` and `a * x^(1-alpha) / (1-alpha)`
otherwise.  Below the `1e-9` guard the fallback is `a * ln(1e-9)` for
`alpha = 1` and `max(a * 1e-9^(1-alpha) / (1-alpha), -1e9)` otherwise —
a branch-dependent quantity, not a single shared sentinel. -/
theorem utility_formula_amended (a x lam z : ℝ) (alpha : ℤ) :
    (1 / 10 ^ 9 ≤ x →
      utility a x lam z alpha =
        (if alpha = 1 then a * Real.log x else a * x ^ (1 - alpha) / (1 - (alpha : ℝ))) -
          lam * z) ∧
    (x < 1 / 10 ^ 9 → alpha = 1 →
      utility a x lam z alpha = a * Real.log (1 / 10 ^ 9) - lam * z) ∧
    (x < 1 / 10 ^ 9 → alpha ≠ 1 →
      utility a x lam z alpha =
        max (a * (1 / 10 ^ 9 : ℝ) ^ (1 - alpha) / (1 - (alpha : ℝ))) (-(10 ^ 9)) -
          lam * z) := by
  refine ⟨?_, ?_, ?_⟩
  · intro h
    simp only [utility]
    rw [if_neg (not_lt.mpr h)]
  · intro h h1
    simp only [utility]
    rw [if_pos h, if_pos h1]
  · intro h h1
    simp only [utility]
    rw [if_pos h, if_neg h1]

theorem utility_formula_amended_witness :
    (1 / 10 ^ 9 : ℝ) ≤ 1 ∧
    utility 1 1 0 0 0 =
      (if (0 : ℤ) = 1 then 1 * Real.log 1 else 1 * (1 : ℝ) ^ ((1 : ℤ) - 0) / (1 - ((0 : ℤ) : ℝ))) -
        0 * 0 :=
  ⟨by norm_num, (utility_formula_amended 1 1 0 0 0).1 (by norm_num)⟩

/-!
Part 2: the simulation engine of `simulator.py`, over `ℚ`.

Modelling conventions, stated once here:

* Python floats are modelled as exact rationals so that concrete runs
  can be evaluated inside the kernel.
* `math.sqrt` is modelled by `sqrtQ`, exact on perfect squares of
  rationals (the only arguments reached in the concrete runs evaluated
  below) and `0` elsewhere; `math.log`, reached only under `ALPHA = 1`,
  is modelled by the placeholder `logQ`.  Both are bundled in a
  `MathFns` record so the engine theorems can quantify over any model
  of the two library functions; no theorem below depends on a value of
  either outside the exact cases.
* Each call to `random.uniform` / `random.expovariate` is modelled as
  consuming the next value of a variate stream `draws : ℕ → ℚ`;
  `random.seed(SEED)` in `run` makes that stream a function of the
  configured seed alone, modelled by selecting `variates cfg.SEED` and
  resetting the stream position, discarding the ambient generator
  state.
* Console printing (the `VERBOSE` logs and run banners) does not touch
  the market state and is omitted; `print_results`,
  `print_player_summary` and the pandas table are presentation only.
-/

/-- Placeholder model of `math.log` for the rational-valued engine; no
theorem below depends on its value. -/

lemma powNat_eq (x : ℚ) (n : ℕ) : powNat x n = x ^ n := by
  induction n with
  | zero => simp [powNat]
  | succ n ih => simp [powNat, pow_succ, ih]

lemma powInt_eq (x : ℚ) (n : ℤ) : powInt x n = x ^ n := by
  cases n with
  | ofNat m => simp [powInt, powNat_eq]
  | negSucc m => simp [powInt, powNat_eq, zpow_negSucc]

/-!
Concrete runs used as failing inputs and counterexamples.
-/

/-- C1 (code bug): in this run exactly one player is active on the
whole processed span `[0, 10]` (its departure record shows
`time_in_system = 10`), so integrating "value in force × elapsed" gives
a player-count integral of `10` and a time-weighted average of `1`
over the processed span (`1/2` over the 20-unit horizon).  The code
instead produces integral `1/4` and average `1/40`: `update_stats` runs
before `current_time` is advanced to the popped event's timestamp, so
each elapsed interval is charged with the value holding *after* the
event at the interval's end, the interval `[1/4, 10]` (count 1 in
force) is charged with the post-departure count 0, and the samples show
it.  The spec's synthetic example (3 players for 10 of 20 units →
average 1.5) is likewise unobtainable. -/
theorem stats_integral_lags_one_event :
    ((run baseFns 0 variatesC1 cfgC1 10).map fun s => s.integral_player_count) =
      some (1/4) ∧
    ((run baseFns 0 variatesC1 cfgC1 10).map fun s => s.current_time) = some 10 ∧
    ((run baseFns 0 variatesC1 cfgC1 10).map fun s => s.stats_player_count) =
      some [(1/4, 1), (10, 0)] ∧
    ((run baseFns 0 variatesC1 cfgC1 10).map fun s =>
      s.departed_player_data.map fun r => (r.pid, r.time_in_system)) = some [(0, 10)] ∧
    ((run baseFns 0 variatesC1 cfgC1 10).bind (get_summary_stats baseFns)).map
      (fun t => t.avg_player_count) = some (1/40) ∧
    (1/4 : ℚ) ≠ 10 ∧ (1/40 : ℚ) ≠ 1/2 := by
  refine ⟨?_, ?_, ?_, ?_, ?_, by norm_num, by norm_num⟩ <;> with_unfolding_all decide

/-- C2 counterexample: events carry no insertion sequence number.  Two
events with equal timestamp are popped in event-type-string order, not
insertion order — here the departure is pushed first and the arrival
second, yet the arrival is popped first.  And Python's comparison of
two entries tied on timestamp and type with distinct payload dicts is
undefined (`TypeError`), refuting "deterministic and never
undefined". -/
theorem tie_break_ignores_insertion_order :
    popMin [⟨5, .PLAYER_DEPARTURE, some 0⟩, ⟨5, .PLAYER_ARRIVAL, none⟩] =
      some (⟨5, .PLAYER_ARRIVAL, none⟩, [⟨5, .PLAYER_DEPARTURE, some 0⟩]) ∧
    pyLt ⟨10, .PLAYER_DEPARTURE, some 0⟩ ⟨10, .PLAYER_DEPARTURE, some 1⟩ = none := by
  exact ⟨by decide, by decide⟩

/-- C6 counterexample: `handle_player_arrival` stores the new player
with `bid = 0.0`, so a player is in the active set with a bid that is
exactly zero (below the configured floor `EPSILON = 1e-3`) from its
arrival until its first processed bid revision — here until the run
ends. -/
theorem arrived_player_bid_zero :
    ((run baseFns 0 (fun _ n => [7, 10, 25, 1/4].getD n 0) cfgC6 5).map fun s =>
      s.players.map fun q => (q.1, q.2.bid)) = some [(0, 0)] ∧
    (0 : ℚ) < cfgC6.EPSILON := by
  exact ⟨by with_unfolding_all decide, by with_unfolding_all decide⟩

/-- C7 counterexample: scheduling an event strictly in the past does
not fail.  With the clock at 5, scheduling at time 3 silently inserts
the event into the queue and changes nothing else. -/
theorem schedule_past_inserts_silently :
    (3 : ℚ) < ({ initialState baseConfig with current_time := 5 } : SimState).current_time ∧
    schedule_event { initialState baseConfig with current_time := 5 } 3 .PLAYER_ARRIVAL none =
      { ({ initialState baseConfig with current_time := 5 } : SimState) with
        event_queue := [⟨3, .PLAYER_ARRIVAL, none⟩] } := by
  exact ⟨by norm_num, rfl⟩

/-- C7 (amended): `schedule_event` performs no validation of the
timestamp against the current logical clock; even an event strictly in
the past is unconditionally appended to the priority queue, with no
error and no other state change. -/
theorem schedule_event_no_validation (s : SimState) (t : ℚ) (ty : EventType)
    (d : Option ℕ) (_h : t < s.current_time) :
    schedule_event s t ty d = { s with event_queue := s.event_queue ++ [⟨t, ty, d⟩] } :=
  rfl

theorem schedule_event_no_validation_witness :
    (3 : ℚ) < ({ initialState baseConfig with current_time := 5 } : SimState).current_time ∧
    schedule_event { initialState baseConfig with current_time := 5 } 3
        .PLAYER_DEPARTURE (some 4) =
      { ({ initialState baseConfig with current_time := 5 } : SimState) with
        event_queue := [⟨3, .PLAYER_DEPARTURE, some 4⟩] } :=
  ⟨by norm_num,
    schedule_event_no_validation { initialState baseConfig with current_time := 5 } 3
      .PLAYER_DEPARTURE (some 4) (by norm_num)⟩

/-- C8: a departure event or a bid-revision event whose target player
is not in the active set is a silent no-op: the handler returns
(no exception) with the entire state — active players, departed
records, price, integrals and event queue — unchanged. -/
theorem stale_event_noop (F : MathFns) (draws : ℕ → ℚ) (s : SimState) (pid : ℕ)
    (h : lookupPlayer pid s = none) :
    handle_player_departure F draws s (some pid) = some s ∧
    handle_player_bid_revision F s (some pid) = some s := by
  constructor
  · simp [handle_player_departure, h]
  · simp [handle_player_bid_revision, h]

theorem stale_event_noop_witness :
    lookupPlayer 3 (initialState baseConfig) = none ∧
    handle_player_departure baseFns (fun _ => 0) (initialState baseConfig) (some 3) =
      some (initialState baseConfig) ∧
    handle_player_bid_revision baseFns (initialState baseConfig) (some 3) =
      some (initialState baseConfig) :=
  ⟨rfl,
    (stale_event_noop baseFns (fun _ => 0) (initialState baseConfig) 3 rfl).1,
    (stale_event_noop baseFns (fun _ => 0) (initialState baseConfig) 3 rfl).2⟩

/-- C10 counterexample: the arrival handler schedules the next
background arrival and the price-adjustment handler reschedules the
next adjustment unconditionally — here an arrival at time 25 and an
adjustment at time 23 are pushed although the horizon is 20. -/
theorem handlers_schedule_beyond_horizon :
    (⟨25, .PLAYER_ARRIVAL, none⟩ : Event) ∈
      (handle_player_arrival (fun n => [0, 1, 25, 0].getD n 0)
        (initialState cfgC1)).event_queue ∧
    cfgC1.SIM_MAX_TIME < 25 ∧
    (⟨23, .PRICE_ADJUSTMENT, none⟩ : Event) ∈
      (handle_price_adjustment (fun _ => 0)
        { initialState cfgC1 with current_time := 18 }).event_queue ∧
    cfgC1.SIM_MAX_TIME < 23 := by
  refine ⟨?_, ?_, ?_, ?_⟩ <;> with_unfolding_all decide

/-!
Helper lemmas about the queue model.
-/

lemma popMin_cons (a : Event) (l : List Event) :
    popMin (a :: l) = match popMin l with
      | none => some (a, [])
      | some (m, r) => if key m < key a then some (m, a :: r) else some (a, l) := rfl

lemma popMin_cons_ne_none (a : Event) (l : List Event) : popMin (a :: l) ≠ none := by
  rw [popMin_cons]
  cases h : popMin l with
  | none => simp
  | some p =>
    obtain ⟨m, r⟩ := p
    by_cases hk : key m < key a <;> simp [hk]

lemma popMin_le_all (q : List Event) : ∀ (e : Event) (q' : List Event),
    popMin q = some (e, q') → ∀ x ∈ q, key e ≤ key x := by
  induction q with
  | nil => intro e q' h; simp [popMin] at h
  | cons a l ih =>
    intro e q' h x hx
    rw [popMin_cons] at h
    cases hl : popMin l with
    | none =>
      rw [hl] at h
      have hl0 : l = [] := by
        cases l with
        | nil => rfl
        | cons b m => exact absurd hl (popMin_cons_ne_none b m)
      subst hl0
      simp at h
      obtain ⟨rfl, rfl⟩ := h
      simp at hx
      subst hx
      exact le_refl _
    | some p =>
      obtain ⟨m, r⟩ := p
      rw [hl] at h
      have hml : ∀ y ∈ l, key m ≤ key y := ih m r hl
      by_cases hk : key m < key a
      · simp only [hk, if_true] at h
        obtain ⟨rfl, rfl⟩ := h
        rcases List.mem_cons.mp hx with rfl | hx2
        · exact le_of_lt hk
        · exact hml x hx2
      · simp only [hk, if_false] at h
        obtain ⟨rfl, rfl⟩ := h
        rcases List.mem_cons.mp hx with rfl | hx2
        · exact le_refl _
        · exact le_trans (not_lt.mp hk) (hml x hx2)

lemma popMin_mem (q : List Event) : ∀ (e : Event) (q' : List Event),
    popMin q = some (e, q') → e ∈ q := by
  induction q with
  | nil => intro e q' h; simp [popMin] at h
  | cons a l ih =>
    intro e q' h
    rw [popMin_cons] at h
    cases hl : popMin l with
    | none =>
      rw [hl] at h
      simp at h
      obtain ⟨rfl, rfl⟩ := h
      exact List.mem_cons_self _ _
    | some p =>
      obtain ⟨m, r⟩ := p
      rw [hl] at h
      by_cases hk : key m < key a
      · simp only [hk, if_true] at h
        obtain ⟨rfl, rfl⟩ := h
        exact List.mem_cons_of_mem _ (ih _ _ hl)
      · simp only [hk, if_false] at h
        obtain ⟨rfl, rfl⟩ := h
        exact List.mem_cons_self _ _

lemma popMin_subset (q : List Event) : ∀ (e : Event) (q' : List Event),
    popMin q = some (e, q') → ∀ x ∈ q', x ∈ q := by
  induction q with
  | nil => intro e q' h; simp [popMin] at h
  | cons a l ih =>
    intro e q' h x hx
    rw [popMin_cons] at h
    cases hl : popMin l with
    | none =>
      rw [hl] at h
      simp at h
      obtain ⟨rfl, rfl⟩ := h
      simp at hx
    | some p =>
      obtain ⟨m, r⟩ := p
      rw [hl] at h
      by_cases hk : key m < key a
      · simp only [hk, if_true] at h
        obtain ⟨rfl, rfl⟩ := h
        rcases List.mem_cons.mp hx with rfl | hx2
        · exact List.mem_cons_self _ _
        · exact List.mem_cons_of_mem _ (ih _ _ hl x hx2)
      · simp only [hk, if_false] at h
        obtain ⟨rfl, rfl⟩ := h
        exact List.mem_cons_of_mem _ hx

lemma key_le_time {e f : Event} (h : key e ≤ key f) : e.time ≤ f.time := by
  rw [key, key, Prod.Lex.le_iff] at h
  rcases h with h | ⟨h1, _⟩
  · exact le_of_lt h
  · exact le_of_eq h1

lemma key_tie_rank {e f : Event} (h : key e ≤ key f) (ht : e.time = f.time) :
    typeRank e.etype ≤ typeRank f.etype := by
  rw [key, key, Prod.Lex.le_iff] at h
  rcases h with h | ⟨h1, h2⟩
  · rw [ht] at h
    exact absurd h (lt_irrefl _)
  · rw [Prod.Lex.le_iff] at h2
    rcases h2 with h2 | ⟨h3, _⟩
    · exact le_of_lt h2
    · exact le_of_eq h3

/-!
A closed form for the notification broadcast, from which its framing
properties follow.
-/

lemma notify_eq (draws : ℕ → ℚ) (s : SimState) :
    notify_all_players_to_revise draws s =
      { s with
        event_queue :=
          s.event_queue ++ revEvents draws s.current_time s.rng_index s.players,
        rng_index := s.rng_index + s.players.length } := by
  suffices h : ∀ (ps : List (ℕ × Player)) (st : SimState),
      ps.foldl (fun st q =>
        let (d, st2) := nextDraw draws st
        schedule_event st2 (st2.current_time + d) .PLAYER_BID_REVISION (some q.1)) st =
      { st with
        event_queue :=
          st.event_queue ++ revEvents draws st.current_time st.rng_index ps,
        rng_index := st.rng_index + ps.length } by
    exact h s.players s
  intro ps
  induction ps with
  | nil => intro st; simp [revEvents]
  | cons q ps ih =>
    intro st
    rw [List.foldl_cons, ih]
    simp [nextDraw, schedule_event, revEvents]
    omega

lemma revEvents_time {draws : ℕ → ℚ} {t : ℚ} (h : ∀ j, 0 ≤ draws j) :
    ∀ (i : ℕ) (ps : List (ℕ × Player)), ∀ e ∈ revEvents draws t i ps, t ≤ e.time := by
  intro i ps
  induction ps generalizing i with
  | nil => simp [revEvents]
  | cons q ps ih =>
    intro e he
    rw [revEvents] at he
    rcases List.mem_cons.mp he with rfl | he2
    · exact le_add_of_nonneg_right (h i)
    · exact ih (i + 1) e he2

/-!
Frame lemmas: which state fields each operation leaves untouched.
-/

@[simp] lemma upi_config (s : SimState) :
    (update_player_integrals s).config = s.config := by
  rw [update_player_integrals]; split <;> rfl

@[simp] lemma upi_time (s : SimState) :
    (update_player_integrals s).current_time = s.current_time := by
  rw [update_player_integrals]; split <;> rfl

@[simp] lemma upi_price (s : SimState) :
    (update_player_integrals s).current_price = s.current_price := by
  rw [update_player_integrals]; split <;> rfl

@[simp] lemma upi_stats_price (s : SimState) :
    (update_player_integrals s).stats_price = s.stats_price := by
  rw [update_player_integrals]; split <;> rfl

@[simp] lemma upi_queue (s : SimState) :
    (update_player_integrals s).event_queue = s.event_queue := by
  rw [update_player_integrals]; split <;> rfl

@[simp] lemma upi_log (s : SimState) :
    (update_player_integrals s).dispatch_log = s.dispatch_log := by
  rw [update_player_integrals]; split <;> rfl

lemma upi_players_bid (s : SimState) :
    ∀ q ∈ (update_player_integrals s).players,
      ∃ q0 ∈ s.players, q.1 = q0.1 ∧ q.2.bid = q0.2.bid := by
  rw [update_player_integrals]
  split
  · intro q hq; exact ⟨q, hq, rfl, rfl⟩
  · intro q hq
    simp only [List.mem_map] at hq
    obtain ⟨q0, hq0, rfl⟩ := hq
    exact ⟨q0, hq0, rfl, rfl⟩

@[simp] lemma ustats_config (F : MathFns) (s : SimState) :
    (update_stats F s).config = s.config := by
  rw [update_stats]; split <;> rfl

@[simp] lemma ustats_time (F : MathFns) (s : SimState) :
    (update_stats F s).current_time = s.current_time := by
  rw [update_stats]; split <;> rfl

@[simp] lemma ustats_price (F : MathFns) (s : SimState) :
    (update_stats F s).current_price = s.current_price := by
  rw [update_stats]; split <;> rfl

@[simp] lemma ustats_queue (F : MathFns) (s : SimState) :
    (update_stats F s).event_queue = s.event_queue := by
  rw [update_stats]; split <;> rfl

@[simp] lemma ustats_log (F : MathFns) (s : SimState) :
    (update_stats F s).dispatch_log = s.dispatch_log := by
  rw [update_stats]; split <;> rfl

@[simp] lemma ustats_players (F : MathFns) (s : SimState) :
    (update_stats F s).players = s.players := by
  rw [update_stats]; split <;> rfl

lemma ustats_stats_price (F : MathFns) (s : SimState) :
    (update_stats F s).stats_price = s.stats_price ∨
    (update_stats F s).stats_price =
      s.stats_price ++ [(s.current_time, s.current_price)] := by
  rw [update_stats]
  split
  · exact Or.inl rfl
  · exact Or.inr rfl

@[simp] lemma advance_config (e : Event) (s : SimState) :
    (advanceClock e s).config = s.config := rfl

@[simp] lemma advance_price (e : Event) (s : SimState) :
    (advanceClock e s).current_price = s.current_price := rfl

@[simp] lemma advance_stats_price (e : Event) (s : SimState) :
    (advanceClock e s).stats_price = s.stats_price := rfl

@[simp] lemma advance_queue (e : Event) (s : SimState) :
    (advanceClock e s).event_queue = s.event_queue := rfl

@[simp] lemma advance_players (e : Event) (s : SimState) :
    (advanceClock e s).players = s.players := rfl

@[simp] lemma advance_time (e : Event) (s : SimState) :
    (advanceClock e s).current_time = e.time := rfl

@[simp] lemma advance_log (e : Event) (s : SimState) :
    (advanceClock e s).dispatch_log = s.dispatch_log ++ [(e.time, e.etype)] := rfl

@[simp] lemma schedule_config (s : SimState) (t : ℚ) (ty : EventType) (d : Option ℕ) :
    (schedule_event s t ty d).config = s.config := rfl

@[simp] lemma schedule_price (s : SimState) (t : ℚ) (ty : EventType) (d : Option ℕ) :
    (schedule_event s t ty d).current_price = s.current_price := rfl

@[simp] lemma schedule_stats_price (s : SimState) (t : ℚ) (ty : EventType)
    (d : Option ℕ) : (schedule_event s t ty d).stats_price = s.stats_price := rfl

@[simp] lemma schedule_time (s : SimState) (t : ℚ) (ty : EventType) (d : Option ℕ) :
    (schedule_event s t ty d).current_time = s.current_time := rfl

@[simp] lemma schedule_log (s : SimState) (t : ℚ) (ty : EventType) (d : Option ℕ) :
    (schedule_event s t ty d).dispatch_log = s.dispatch_log := rfl

@[simp] lemma schedule_players (s : SimState) (t : ℚ) (ty : EventType) (d : Option ℕ) :
    (schedule_event s t ty d).players = s.players := rfl

@[simp] lemma schedule_queue (s : SimState) (t : ℚ) (ty : EventType) (d : Option ℕ) :
    (schedule_event s t ty d).event_queue = s.event_queue ++ [⟨t, ty, d⟩] := rfl

@[simp] lemma schedule_rng (s : SimState) (t : ℚ) (ty : EventType) (d : Option ℕ) :
    (schedule_event s t ty d).rng_index = s.rng_index := rfl

@[simp] lemma notify_config (draws : ℕ → ℚ) (s : SimState) :
    (notify_all_players_to_revise draws s).config = s.config := by rw [notify_eq]

@[simp] lemma notify_price (draws : ℕ → ℚ) (s : SimState) :
    (notify_all_players_to_revise draws s).current_price = s.current_price := by
  rw [notify_eq]

@[simp] lemma notify_stats_price (draws : ℕ → ℚ) (s : SimState) :
    (notify_all_players_to_revise draws s).stats_price = s.stats_price := by
  rw [notify_eq]

@[simp] lemma notify_time (draws : ℕ → ℚ) (s : SimState) :
    (notify_all_players_to_revise draws s).current_time = s.current_time := by
  rw [notify_eq]

@[simp] lemma notify_log (draws : ℕ → ℚ) (s : SimState) :
    (notify_all_players_to_revise draws s).dispatch_log = s.dispatch_log := by
  rw [notify_eq]

@[simp] lemma notify_players (draws : ℕ → ℚ) (s : SimState) :
    (notify_all_players_to_revise draws s).players = s.players := by
  rw [notify_eq]

@[simp] lemma notify_queue (draws : ℕ → ℚ) (s : SimState) :
    (notify_all_players_to_revise draws s).event_queue =
      s.event_queue ++ revEvents draws s.current_time s.rng_index s.players := by
  rw [notify_eq]

/-!
Closed forms for the handlers, as far as the invariants need them.
-/

/-!
What `handle_player_arrival` does to each field the invariants watch.
-/

@[simp] lemma arrival_config (draws : ℕ → ℚ) (s : SimState) :
    (handle_player_arrival draws s).config = s.config := by
  simp [handle_player_arrival, nextDraw]

@[simp] lemma arrival_time (draws : ℕ → ℚ) (s : SimState) :
    (handle_player_arrival draws s).current_time = s.current_time := by
  simp [handle_player_arrival, nextDraw]

@[simp] lemma arrival_price (draws : ℕ → ℚ) (s : SimState) :
    (handle_player_arrival draws s).current_price = s.current_price := by
  simp [handle_player_arrival, nextDraw]

@[simp] lemma arrival_stats_price (draws : ℕ → ℚ) (s : SimState) :
    (handle_player_arrival draws s).stats_price = s.stats_price := by
  simp [handle_player_arrival, nextDraw]

@[simp] lemma arrival_log (draws : ℕ → ℚ) (s : SimState) :
    (handle_player_arrival draws s).dispatch_log = s.dispatch_log := by
  simp [handle_player_arrival, nextDraw]

lemma arrival_players (draws : ℕ → ℚ) (s : SimState) :
    (handle_player_arrival draws s).players =
      s.players ++
        [(s.next_pid, ⟨draws s.rng_index, 0, s.current_time, 0, 0, s.current_time⟩)] := by
  simp [handle_player_arrival, nextDraw]

lemma arrival_queue_time {draws : ℕ → ℚ} (hd : ∀ i, 0 ≤ draws i) (s : SimState) :
    ∀ e ∈ (handle_player_arrival draws s).event_queue,
      e ∈ s.event_queue ∨ s.current_time ≤ e.time := by
  intro e he
  simp [handle_player_arrival, nextDraw, List.append_assoc] at he
  rcases he with he | rfl | rfl | he
  · exact Or.inl he
  · exact Or.inr (le_add_of_nonneg_right (hd _))
  · exact Or.inr (le_add_of_nonneg_right (hd _))
  · exact Or.inr (revEvents_time hd _ _ e he)

/-- Every state `handle_player_departure` can return. -/
lemma departure_some {F : MathFns} {draws : ℕ → ℚ} {s s' : SimState} {d : Option ℕ}
    (hh : handle_player_departure F draws s d = some s') :
    s' = s ∨ s' = update_player_integrals s ∨
    ∃ (pid : ℕ) (rec : DepartedRecord), s' =
      notify_all_players_to_revise draws
        { update_player_integrals s with
          departed_player_data :=
            (update_player_integrals s).departed_player_data ++ [rec]
          completed_player_count :=
            (update_player_integrals s).completed_player_count + 1
          players := erasePlayer pid (update_player_integrals s).players } := by
  cases d with
  | none => simp [handle_player_departure] at hh
  | some pid =>
    rw [handle_player_departure] at hh
    cases h1 : lookupPlayer pid s with
    | none =>
      simp only [h1, Option.some_inj] at hh
      exact Or.inl hh.symm
    | some p0 =>
      cases h2 : lookupPlayer pid (update_player_integrals s) with
      | none =>
        simp only [h1, h2, Option.some_inj] at hh
        exact Or.inr (Or.inl hh.symm)
      | some player =>
        simp only [h1, h2, Option.some_inj] at hh
        exact Or.inr (Or.inr ⟨pid, _, hh.symm⟩)

lemma best_responseQ_ok_ge {F : MathFns} {a sm lam : ℚ} {alpha : ℤ} {br : ℚ}
    (h : best_responseQ F a sm lam alpha = Except.ok br) : EPSILON_BASE ≤ br := by
  rw [best_responseQ] at h
  split_ifs at h <;> simp only [Except.ok.injEq] at h <;>
    (rw [← h]; exact le_max_left _ _)

/-- Every state `handle_player_bid_revision` can return: untouched, or
with one player's bid set to a best response (which is at least the
global bid floor) clamped by the budget at the current price. -/
lemma revision_some {F : MathFns} {s s' : SimState} {d : Option ℕ}
    (hh : handle_player_bid_revision F s d = some s') :
    s' = s ∨ s' = update_player_integrals s ∨
    ∃ (pid : ℕ) (br : ℚ), EPSILON_BASE ≤ br ∧ s' =
      { update_player_integrals s with
        players := (update_player_integrals s).players.map fun q =>
          if q.1 = pid then
            (q.1, { q.2 with
              bid := min br
                ((update_player_integrals s).config.BUDGET /
                  (update_player_integrals s).current_price) })
          else q } := by
  cases d with
  | none => simp [handle_player_bid_revision] at hh
  | some pid =>
    rw [handle_player_bid_revision] at hh
    cases h1 : lookupPlayer pid s with
    | none =>
      simp only [h1, Option.some_inj] at hh
      exact Or.inl hh.symm
    | some p0 =>
      cases h2 : lookupPlayer pid (update_player_integrals s) with
      | none =>
        simp only [h1, h2, Option.some_inj] at hh
        exact Or.inr (Or.inl hh.symm)
      | some player =>
        cases h3 : best_responseQ F player.a
            (get_total_bid (update_player_integrals s) - player.bid +
              (update_player_integrals s).config.DELTA)
            (update_player_integrals s).current_price
            (update_player_integrals s).config.ALPHA with
        | error msg =>
          simp only [h1, h2, h3] at hh
          exact Option.noConfusion hh
        | ok br =>
          simp only [h1, h2, h3, Option.some_inj] at hh
          exact Or.inr (Or.inr ⟨pid, br, best_responseQ_ok_ge h3, hh.symm⟩)

/-!
What `handle_price_adjustment` does to each field the invariants watch.
-/

@[simp] lemma pa_config (draws : ℕ → ℚ) (s : SimState) :
    (handle_price_adjustment draws s).config = s.config := by
  simp [handle_price_adjustment]

@[simp] lemma pa_time (draws : ℕ → ℚ) (s : SimState) :
    (handle_price_adjustment draws s).current_time = s.current_time := by
  simp [handle_price_adjustment]

@[simp] lemma pa_log (draws : ℕ → ℚ) (s : SimState) :
    (handle_price_adjustment draws s).dispatch_log = s.dispatch_log := by
  simp [handle_price_adjustment]

@[simp] lemma pa_players (draws : ℕ → ℚ) (s : SimState) :
    (handle_price_adjustment draws s).players = s.players := by
  simp [handle_price_adjustment]

@[simp] lemma pa_stats_price (draws : ℕ → ℚ) (s : SimState) :
    (handle_price_adjustment draws s).stats_price = s.stats_price := by
  simp [handle_price_adjustment]

/-- The only assignment to the price outside `__init__`: the
proportional-feedback update clamped into `[MIN_PRICE, MAX_PRICE]`. -/
lemma pa_price (draws : ℕ → ℚ) (s : SimState) :
    (handle_price_adjustment draws s).current_price =
      max s.config.MIN_PRICE (min s.config.MAX_PRICE
        (s.current_price * (1 + s.config.K_PRICE *
          (get_utilization s (get_total_bid s) - s.config.TARGET_UTILIZATION)))) := by
  simp [handle_price_adjustment]

lemma pa_queue_time {draws : ℕ → ℚ} (hd : ∀ i, 0 ≤ draws i) (s : SimState)
    (hI : 0 ≤ s.config.PRICE_ADJUST_INTERVAL) :
    ∀ e ∈ (handle_price_adjustment draws s).event_queue,
      e ∈ s.event_queue ∨ s.current_time ≤ e.time := by
  intro e he
  simp [handle_price_adjustment, List.append_assoc] at he
  rcases he with he | he | rfl
  · exact Or.inl he
  · exact Or.inr (revEvents_time hd _ _ e he)
  · exact Or.inr (le_add_of_nonneg_right hI)

/-- One induction principle for the main loop: any predicate preserved
by the pre-processing of a popped event, by the horizon break, and by
the handlers, is an invariant of `simLoop`. -/
lemma simLoop_ind (F : MathFns) (draws : ℕ → ℚ) (P : SimState → Prop)
    (hpop : ∀ s e rest, popMin s.event_queue = some (e, rest) →
      ¬ s.config.SIM_MAX_TIME < e.time → P s →
      P (advanceClock e (update_stats F
        (update_player_integrals { s with event_queue := rest }))))
    (hbreak : ∀ s e rest, popMin s.event_queue = some (e, rest) →
      s.config.SIM_MAX_TIME < e.time → P s → P { s with event_queue := rest })
    (hstep : ∀ e s s', processEvent F draws e s = some s' → P s → P s') :
    ∀ (fuel : ℕ) (s s' : SimState), simLoop F draws fuel s = some s' → P s → P s' := by
  intro fuel
  induction fuel with
  | zero =>
    intro s s' h hp
    simp only [simLoop, Option.some_inj] at h
    subst h
    exact hp
  | succ n ih =>
    intro s s' h hp
    rw [simLoop] at h
    cases hq : popMin s.event_queue with
    | none =>
      rw [hq] at h
      simp only [Option.some_inj] at h
      subst h
      exact hp
    | some p =>
      obtain ⟨e, rest⟩ := p
      rw [hq] at h
      simp only at h
      by_cases hts : s.config.SIM_MAX_TIME < e.time
      · rw [if_pos hts] at h
        simp only [Option.some_inj] at h
        subst h
        exact hbreak s e rest hq hts hp
      · rw [if_neg hts] at h
        cases hps : processEvent F draws e
            (advanceClock e (update_stats F
              (update_player_integrals { s with event_queue := rest }))) with
        | none => rw [hps] at h; simp at h
        | some s5 =>
          rw [hps] at h
          simp only [Option.some_bind] at h
          exact ih s5 s' h (hstep _ _ _ hps (hpop s e rest hq hts hp))

lemma run_eq (F : MathFns) (amb : ℕ) (variates : ℤ → ℕ → ℚ) (cfg : Config)
    (fuel : ℕ) :
    run F amb variates cfg fuel =
      (simLoop F (variates cfg.SEED) fuel (startState cfg)).map (update_stats F) := rfl

lemma run_some_of {F : MathFns} {amb : ℕ} {variates : ℤ → ℕ → ℚ} {cfg : Config}
    {fuel : ℕ} {sEnd : SimState} (hr : run F amb variates cfg fuel = some sEnd) :
    ∃ sL, simLoop F (variates cfg.SEED) fuel (startState cfg) = some sL ∧
      sEnd = update_stats F sL := by
  rw [run_eq] at hr
  cases hsl : simLoop F (variates cfg.SEED) fuel (startState cfg) with
  | none => rw [hsl] at hr; simp at hr
  | some sL =>
    rw [hsl] at hr
    simp only [Option.map_some', Option.some_inj] at hr
    exact ⟨sL, rfl, hr.symm⟩

@[simp] lemma startState_config (cfg : Config) : (startState cfg).config = cfg := by
  rw [startState]; split <;> rfl

@[simp] lemma startState_price (cfg : Config) :
    (startState cfg).current_price = cfg.INITIAL_PRICE := by
  rw [startState]; split <;> rfl

@[simp] lemma startState_stats_price (cfg : Config) :
    (startState cfg).stats_price = [] := by
  rw [startState]; split <;> rfl

@[simp] lemma startState_players (cfg : Config) : (startState cfg).players = [] := by
  rw [startState]; split <;> rfl

@[simp] lemma startState_time (cfg : Config) : (startState cfg).current_time = 0 := by
  rw [startState]; split <;> rfl

@[simp] lemma startState_log (cfg : Config) : (startState cfg).dispatch_log = [] := by
  rw [startState]; split <;> rfl

lemma startState_queue_time (cfg : Config) :
    ∀ e ∈ (startState cfg).event_queue,
      e.time = 0 ∨ e.time = cfg.PRICE_ADJUST_INTERVAL := by
  rw [startState]
  split
  · intro e he
    simp [schedule_event, initialState] at he
    rcases he with rfl | rfl
    · exact Or.inl rfl
    · exact Or.inr rfl
  · intro e he
    simp [schedule_event, initialState] at he
    subst he
    exact Or.inl rfl

/-!
Price-bounds invariant: preservation through every step, and the C5
theorem.
-/

lemma priceInv_of_eq {s s' : SimState} (h : PriceInv s) (hc : s'.config = s.config)
    (hp : s'.current_price = s.current_price) (hs : s'.stats_price = s.stats_price) :
    PriceInv s' := by
  rw [PriceInv, hc, hp, hs]
  exact h

lemma priceInv_ustats (F : MathFns) {s : SimState} (h : PriceInv s) :
    PriceInv (update_stats F s) := by
  obtain ⟨h1, h2, h3⟩ := h
  refine ⟨?_, ?_, ?_⟩
  · rw [ustats_config, ustats_price]; exact h1
  · rw [ustats_config, ustats_price]; exact h2
  · intro p hp
    rw [ustats_config]
    rcases ustats_stats_price F s with he | he
    · rw [he] at hp
      exact h3 p hp
    · rw [he] at hp
      rcases List.mem_append.mp hp with hp | hp
      · exact h3 p hp
      · simp only [List.mem_singleton] at hp
        subst hp
        exact ⟨h1, h2⟩

lemma priceInv_step (F : MathFns) (draws : ℕ → ℚ) :
    ∀ (e : Event) (s s' : SimState), processEvent F draws e s = some s' →
      PriceInv s → PriceInv s' := by
  intro e s s' hh hp
  obtain ⟨t, ty, d⟩ := e
  cases ty with
  | PLAYER_ARRIVAL =>
    simp only [processEvent, Option.some_inj] at hh
    subst hh
    exact priceInv_of_eq hp (by simp) (by simp) (by simp)
  | PLAYER_DEPARTURE =>
    simp only [processEvent] at hh
    rcases departure_some hh with rfl | rfl | ⟨pid, rec, rfl⟩
    · exact hp
    · exact priceInv_of_eq hp (by simp) (by simp) (by simp)
    · exact priceInv_of_eq hp (by simp) (by simp) (by simp)
  | PLAYER_BID_REVISION =>
    simp only [processEvent] at hh
    rcases revision_some hh with rfl | rfl | ⟨pid, br, hbr, rfl⟩
    · exact hp
    · exact priceInv_of_eq hp (by simp) (by simp) (by simp)
    · exact priceInv_of_eq hp (by simp) (by simp) (by simp)
  | PRICE_ADJUSTMENT =>
    simp only [processEvent, Option.some_inj] at hh
    subst hh
    obtain ⟨h1, h2, h3⟩ := hp
    refine ⟨?_, ?_, ?_⟩
    · rw [pa_config, pa_price]
      exact le_max_left _ _
    · rw [pa_config, pa_price]
      exact max_le (le_trans h1 h2) (min_le_left _ _)
    · intro p hq
      rw [pa_stats_price] at hq
      rw [pa_config]
      exact h3 p hq

lemma config_constant_step (F : MathFns) (draws : ℕ → ℚ) :
    ∀ (e : Event) (s s' : SimState), processEvent F draws e s = some s' →
      s'.config = s.config := by
  intro e s s' hh
  obtain ⟨t, ty, d⟩ := e
  cases ty with
  | PLAYER_ARRIVAL =>
    simp only [processEvent, Option.some_inj] at hh
    subst hh
    simp
  | PLAYER_DEPARTURE =>
    simp only [processEvent] at hh
    rcases departure_some hh with rfl | rfl | ⟨pid, rec, rfl⟩ <;> simp
  | PLAYER_BID_REVISION =>
    simp only [processEvent] at hh
    rcases revision_some hh with rfl | rfl | ⟨pid, br, hbr, rfl⟩ <;> simp
  | PRICE_ADJUSTMENT =>
    simp only [processEvent, Option.some_inj] at hh
    subst hh
    simp

lemma priceCfg_simLoop (F : MathFns) (draws : ℕ → ℚ) (cfg : Config) :
    ∀ (fuel : ℕ) (s s' : SimState), simLoop F draws fuel s = some s' →
      s.config = cfg ∧ PriceInv s → s'.config = cfg ∧ PriceInv s' := by
  refine simLoop_ind F draws (fun s => s.config = cfg ∧ PriceInv s) ?_ ?_ ?_
  · intro s e rest _ _ h
    have hA : PriceInv { s with event_queue := rest } :=
      priceInv_of_eq h.2 rfl rfl rfl
    have hB : PriceInv (update_player_integrals { s with event_queue := rest }) :=
      priceInv_of_eq hA (upi_config _) (upi_price _) (upi_stats_price _)
    have hC := priceInv_ustats F hB
    exact ⟨by simp [h.1], priceInv_of_eq hC rfl rfl rfl⟩
  · intro s e rest _ _ h
    exact ⟨h.1, priceInv_of_eq h.2 rfl rfl rfl⟩
  · intro e s s' hh h
    exact ⟨by rw [config_constant_step F draws e s s' hh, h.1],
      priceInv_step F draws e s s' hh h.2⟩

/-- C5: with the initial price configured inside `[MIN_PRICE,
MAX_PRICE]`, at every point of every run the current price and every
sample of the price time series lie in that range; and the only price
assignment outside `__init__` is the feedback update
`price * (1 + K * (utilization - target))` clamped into the range. -/
theorem price_within_bounds (F : MathFns) (amb : ℕ) (variates : ℤ → ℕ → ℚ)
    (cfg : Config) (fuel : ℕ) (h1 : cfg.MIN_PRICE ≤ cfg.INITIAL_PRICE)
    (h2 : cfg.INITIAL_PRICE ≤ cfg.MAX_PRICE) :
    ((run F amb variates cfg fuel).elim True fun s =>
      (cfg.MIN_PRICE ≤ s.current_price ∧ s.current_price ≤ cfg.MAX_PRICE) ∧
      ∀ p ∈ s.stats_price, cfg.MIN_PRICE ≤ p.2 ∧ p.2 ≤ cfg.MAX_PRICE) ∧
    (∀ (draws : ℕ → ℚ) (s : SimState),
      (handle_price_adjustment draws s).current_price =
        max s.config.MIN_PRICE (min s.config.MAX_PRICE
          (s.current_price * (1 + s.config.K_PRICE *
            (get_utilization s (get_total_bid s) - s.config.TARGET_UTILIZATION))))) := by
  constructor
  · cases hr : run F amb variates cfg fuel with
    | none => exact trivial
    | some sEnd =>
      obtain ⟨sL, hsl, rfl⟩ := run_some_of hr
      have hstart : (startState cfg).config = cfg ∧ PriceInv (startState cfg) := by
        refine ⟨by simp, ?_, ?_, ?_⟩
        · simpa using h1
        · simpa using h2
        · simp
      have hL := priceCfg_simLoop F (variates cfg.SEED) cfg fuel _ _ hsl hstart
      have hE : (update_stats F sL).config = cfg ∧ PriceInv (update_stats F sL) :=
        ⟨by rw [ustats_config, hL.1], priceInv_ustats F hL.2⟩
      obtain ⟨hc, hp⟩ := hE
      obtain ⟨hp1, hp2, hp3⟩ := hp
      rw [hc] at hp1 hp2 hp3
      exact ⟨⟨hp1, hp2⟩, hp3⟩
  · intro draws s
    exact pa_price draws s

theorem price_within_bounds_witness :
    baseConfig.MIN_PRICE ≤ baseConfig.INITIAL_PRICE ∧
    baseConfig.INITIAL_PRICE ≤ baseConfig.MAX_PRICE ∧
    ((run baseFns 0 (fun _ _ => 1) baseConfig 3).elim True fun s =>
      (baseConfig.MIN_PRICE ≤ s.current_price ∧
        s.current_price ≤ baseConfig.MAX_PRICE) ∧
      ∀ p ∈ s.stats_price,
        baseConfig.MIN_PRICE ≤ p.2 ∧ p.2 ≤ baseConfig.MAX_PRICE) :=
  ⟨by norm_num [baseConfig], by norm_num [baseConfig],
    (price_within_bounds baseFns 0 (fun _ _ => 1) baseConfig 3
      (by norm_num [baseConfig]) (by norm_num [baseConfig])).1⟩

/-!
Bid-floor invariant: arrivals store bid 0; every bid stored by the
revision handler is at least the configured floor.
-/

lemma bid_from_upi {s : SimState} (h : BidInv s) :
    ∀ q ∈ (update_player_integrals s).players,
      q.2.bid = 0 ∨ s.config.EPSILON ≤ q.2.bid := by
  intro q hq
  obtain ⟨q0, hq0, -, hb⟩ := upi_players_bid s q hq
  rw [hb]
  exact h q0 hq0

lemma bid_step (F : MathFns) (draws : ℕ → ℚ) (cfg : Config) (hB : BidCfg cfg) :
    ∀ (e : Event) (s s' : SimState), processEvent F draws e s = some s' →
      (s.config = cfg ∧ PriceInv s ∧ BidInv s) →
      (s'.config = cfg ∧ PriceInv s' ∧ BidInv s') := by
  intro e s s' hh h
  obtain ⟨hcfg, hpr, hbid⟩ := h
  have hc' := config_constant_step F draws e s s' hh
  refine ⟨by rw [hc', hcfg], priceInv_step F draws e s s' hh hpr, ?_⟩
  intro q hq
  rw [BidInv] at hbid
  rw [hc', hcfg]
  obtain ⟨t, ty, d⟩ := e
  cases ty with
  | PLAYER_ARRIVAL =>
    simp only [processEvent, Option.some_inj] at hh
    subst hh
    rw [arrival_players] at hq
    rcases List.mem_append.mp hq with hq | hq
    · rcases hbid q hq with h0 | h0
      · exact Or.inl h0
      · right; rw [← hcfg]; exact h0
    · simp only [List.mem_singleton] at hq
      subst hq
      exact Or.inl rfl
  | PLAYER_DEPARTURE =>
    simp only [processEvent] at hh
    rcases departure_some hh with rfl | rfl | ⟨pid, rec, rfl⟩
    · rcases hbid q hq with h0 | h0
      · exact Or.inl h0
      · right; rw [← hcfg]; exact h0
    · rcases bid_from_upi hbid q hq with h0 | h0
      · exact Or.inl h0
      · right; rw [← hcfg]; exact h0
    · simp only [notify_players] at hq
      have hq2 : q ∈ (update_player_integrals s).players := by
        have := List.mem_filter.mp hq
        exact this.1
      rcases bid_from_upi hbid q hq2 with h0 | h0
      · exact Or.inl h0
      · right; rw [← hcfg]; exact h0
  | PLAYER_BID_REVISION =>
    simp only [processEvent] at hh
    rcases revision_some hh with rfl | rfl | ⟨pid, br, hbr, rfl⟩
    · rcases hbid q hq with h0 | h0
      · exact Or.inl h0
      · right; rw [← hcfg]; exact h0
    · rcases bid_from_upi hbid q hq with h0 | h0
      · exact Or.inl h0
      · right; rw [← hcfg]; exact h0
    · simp only [List.mem_map] at hq
      obtain ⟨q0, hq0, rfl⟩ := hq
      by_cases hQ : q0.1 = pid
      · right
        simp only [hQ, if_true]
        have hmin : 0 < s.config.MIN_PRICE := by rw [hcfg]; exact hB.2.2.1
        have hpos : 0 < s.current_price := lt_of_lt_of_le hmin hpr.1
        have hmax : s.current_price ≤ cfg.MAX_PRICE := by
          rw [← hcfg]; exact hpr.2.1
        refine le_min (le_trans hB.1 hbr) ?_
        rw [upi_config, upi_price, hcfg, le_div_iff₀ hpos]
        calc cfg.EPSILON * s.current_price ≤ cfg.EPSILON * cfg.MAX_PRICE :=
              mul_le_mul_of_nonneg_left hmax hB.2.1
          _ ≤ cfg.BUDGET := hB.2.2.2
      · simp only [hQ, if_false]
        rcases bid_from_upi hbid q0 hq0 with h0 | h0
        · exact Or.inl h0
        · right; rw [← hcfg]; exact h0
  | PRICE_ADJUSTMENT =>
    simp only [processEvent, Option.some_inj] at hh
    subst hh
    rw [pa_players] at hq
    rcases hbid q hq with h0 | h0
    · exact Or.inl h0
    · right; rw [← hcfg]; exact h0

lemma bidCfg_simLoop (F : MathFns) (draws : ℕ → ℚ) (cfg : Config) (hB : BidCfg cfg) :
    ∀ (fuel : ℕ) (s s' : SimState), simLoop F draws fuel s = some s' →
      (s.config = cfg ∧ PriceInv s ∧ BidInv s) →
      (s'.config = cfg ∧ PriceInv s' ∧ BidInv s') := by
  refine simLoop_ind F draws (fun s => s.config = cfg ∧ PriceInv s ∧ BidInv s)
    ?_ ?_ ?_
  · intro s e rest _ _ h
    have hA : PriceInv { s with event_queue := rest } :=
      priceInv_of_eq h.2.1 rfl rfl rfl
    have hB2 : PriceInv (update_player_integrals { s with event_queue := rest }) :=
      priceInv_of_eq hA (upi_config _) (upi_price _) (upi_stats_price _)
    have hC := priceInv_ustats F hB2
    refine ⟨by simp [h.1], priceInv_of_eq hC rfl rfl rfl, ?_⟩
    intro q hq
    simp only [advance_players, ustats_players] at hq
    have hb : BidInv { s with event_queue := rest } := fun q hq => h.2.2 q hq
    rcases bid_from_upi hb q hq with h0 | h0
    · exact Or.inl h0
    · right
      have : (advanceClock e (update_stats F
          (update_player_integrals { s with event_queue := rest }))).config =
          s.config := by simp
      rw [this]
      exact h0
  · intro s e rest _ _ h
    exact ⟨h.1, priceInv_of_eq h.2.1 rfl rfl rfl, fun q hq => h.2.2 q hq⟩
  · exact bid_step F draws cfg hB

/-- C6 (amended): newly arrived players carry bid exactly `0` until
their first processed revision; every bid stored by the revision
handler is at least the configured floor (given the `BASE_CONFIG`-style
facts `EPSILON ≤ 1e-3 ≤ BUDGET / MAX_PRICE` and positive price bounds).
So at every point of a run each active player's bid is `0` or
`≥ EPSILON` — never a positive value below the floor. -/
theorem bid_floor_after_revision (F : MathFns) (amb : ℕ) (variates : ℤ → ℕ → ℚ)
    (cfg : Config) (fuel : ℕ) (hE : cfg.EPSILON ≤ EPSILON_BASE)
    (hE0 : 0 ≤ cfg.EPSILON) (hM : 0 < cfg.MIN_PRICE)
    (hMB : cfg.EPSILON * cfg.MAX_PRICE ≤ cfg.BUDGET)
    (h1 : cfg.MIN_PRICE ≤ cfg.INITIAL_PRICE) (h2 : cfg.INITIAL_PRICE ≤ cfg.MAX_PRICE) :
    (run F amb variates cfg fuel).elim True fun s =>
      ∀ q ∈ s.players, q.2.bid = 0 ∨ cfg.EPSILON ≤ q.2.bid := by
  cases hr : run F amb variates cfg fuel with
  | none => exact trivial
  | some sEnd =>
    obtain ⟨sL, hsl, rfl⟩ := run_some_of hr
    have hstart : (startState cfg).config = cfg ∧ PriceInv (startState cfg) ∧
        BidInv (startState cfg) := by
      refine ⟨by simp, ⟨?_, ?_, ?_⟩, ?_⟩
      · simpa using h1
      · simpa using h2
      · simp
      · intro q hq
        simp at hq
    have hL := bidCfg_simLoop F (variates cfg.SEED) cfg
      ⟨hE, hE0, hM, hMB⟩ fuel _ _ hsl hstart
    intro q hq
    rw [ustats_players] at hq
    rcases hL.2.2 q hq with h0 | h0
    · exact Or.inl h0
    · right
      rw [← hL.1]
      exact h0

theorem bid_floor_after_revision_witness :
    (baseConfig.EPSILON ≤ EPSILON_BASE ∧ 0 ≤ baseConfig.EPSILON ∧
      0 < baseConfig.MIN_PRICE ∧
      baseConfig.EPSILON * baseConfig.MAX_PRICE ≤ baseConfig.BUDGET ∧
      baseConfig.MIN_PRICE ≤ baseConfig.INITIAL_PRICE ∧
      baseConfig.INITIAL_PRICE ≤ baseConfig.MAX_PRICE) ∧
    ((run baseFns 0 (fun _ _ => 1) baseConfig 3).elim True fun s =>
      ∀ q ∈ s.players, q.2.bid = 0 ∨ baseConfig.EPSILON ≤ q.2.bid) :=
  ⟨⟨by norm_num [baseConfig, EPSILON_BASE], by norm_num [baseConfig],
    by norm_num [baseConfig], by norm_num [baseConfig],
    by norm_num [baseConfig], by norm_num [baseConfig]⟩,
    bid_floor_after_revision baseFns 0 (fun _ _ => 1) baseConfig 3
      (by norm_num [baseConfig, EPSILON_BASE]) (by norm_num [baseConfig])
      (by norm_num [baseConfig]) (by norm_num [baseConfig])
      (by norm_num [baseConfig]) (by norm_num [baseConfig])⟩

/-!
Ordering invariant of the dispatch loop (C2) and the horizon bound on
dispatched events (C10).
-/

lemma processEvent_time_log (F : MathFns) (draws : ℕ → ℚ) :
    ∀ (e : Event) (s s' : SimState), processEvent F draws e s = some s' →
      s'.current_time = s.current_time ∧ s'.dispatch_log = s.dispatch_log := by
  intro e s s' hh
  obtain ⟨t, ty, d⟩ := e
  cases ty with
  | PLAYER_ARRIVAL =>
    simp only [processEvent, Option.some_inj] at hh
    subst hh
    exact ⟨by simp, by simp⟩
  | PLAYER_DEPARTURE =>
    simp only [processEvent] at hh
    rcases departure_some hh with rfl | rfl | ⟨pid, rec, rfl⟩ <;> exact ⟨by simp, by simp⟩
  | PLAYER_BID_REVISION =>
    simp only [processEvent] at hh
    rcases revision_some hh with rfl | rfl | ⟨pid, br, hbr, rfl⟩ <;>
      exact ⟨by simp, by simp⟩
  | PRICE_ADJUSTMENT =>
    simp only [processEvent, Option.some_inj] at hh
    subst hh
    exact ⟨by simp, by simp⟩

lemma processEvent_queue_time (F : MathFns) {draws : ℕ → ℚ} (hd : ∀ i, 0 ≤ draws i) :
    ∀ (e : Event) (s s' : SimState), processEvent F draws e s = some s' →
      0 ≤ s.config.PRICE_ADJUST_INTERVAL →
      ∀ ev ∈ s'.event_queue, ev ∈ s.event_queue ∨ s.current_time ≤ ev.time := by
  intro e s s' hh hI ev hev
  obtain ⟨t, ty, d⟩ := e
  cases ty with
  | PLAYER_ARRIVAL =>
    simp only [processEvent, Option.some_inj] at hh
    subst hh
    exact arrival_queue_time hd s ev hev
  | PLAYER_DEPARTURE =>
    simp only [processEvent] at hh
    rcases departure_some hh with rfl | rfl | ⟨pid, rec, rfl⟩
    · exact Or.inl hev
    · rw [upi_queue] at hev
      exact Or.inl hev
    · simp only [notify_queue, upi_queue, notify_time] at hev
      rcases List.mem_append.mp hev with hev | hev
      · exact Or.inl hev
      · right
        have := revEvents_time hd _ _ ev hev
        simpa using this
  | PLAYER_BID_REVISION =>
    simp only [processEvent] at hh
    rcases revision_some hh with rfl | rfl | ⟨pid, br, hbr, rfl⟩
    · exact Or.inl hev
    · rw [upi_queue] at hev
      exact Or.inl hev
    · rw [show ({ update_player_integrals s with
          players := (update_player_integrals s).players.map fun q =>
            if q.1 = pid then
              (q.1, { q.2 with
                bid := min br
                  ((update_player_integrals s).config.BUDGET /
                    (update_player_integrals s).current_price) })
            else q } : SimState).event_queue =
          s.event_queue from by simp] at hev
      exact Or.inl hev
  | PRICE_ADJUSTMENT =>
    simp only [processEvent, Option.some_inj] at hh
    subst hh
    exact pa_queue_time hd s hI ev hev

lemma order_step (F : MathFns) {draws : ℕ → ℚ} (cfg : Config)
    (hd : ∀ i, 0 ≤ draws i) (hI : 0 ≤ cfg.PRICE_ADJUST_INTERVAL) :
    ∀ (e : Event) (s s' : SimState), processEvent F draws e s = some s' →
      (s.config = cfg ∧ OrderInv s) → (s'.config = cfg ∧ OrderInv s') := by
  intro e s s' hh h
  obtain ⟨hcfg, hq, hl, hs⟩ := h
  have hc' := config_constant_step F draws e s s' hh
  obtain ⟨ht', hl'⟩ := processEvent_time_log F draws e s s' hh
  refine ⟨by rw [hc', hcfg], ?_, ?_, ?_⟩
  · intro ev hev
    rw [ht']
    rcases processEvent_queue_time F hd e s s' hh (by rw [hcfg]; exact hI) ev hev with
      h0 | h0
    · exact hq ev h0
    · exact h0
  · intro p hp
    rw [hl'] at hp
    rw [ht']
    exact hl p hp
  · rw [hl']
    exact hs

lemma order_simLoop (F : MathFns) {draws : ℕ → ℚ} (cfg : Config)
    (hd : ∀ i, 0 ≤ draws i) (hI : 0 ≤ cfg.PRICE_ADJUST_INTERVAL) :
    ∀ (fuel : ℕ) (s s' : SimState), simLoop F draws fuel s = some s' →
      (s.config = cfg ∧ OrderInv s) → (s'.config = cfg ∧ OrderInv s') := by
  refine simLoop_ind F draws (fun s => s.config = cfg ∧ OrderInv s) ?_ ?_ ?_
  · intro s e rest hpope _ h
    obtain ⟨hcfg, hq, hl, hs⟩ := h
    have hin : e ∈ s.event_queue := popMin_mem _ _ _ hpope
    have hct : s.current_time ≤ e.time := hq e hin
    refine ⟨by simp [hcfg], ?_, ?_, ?_⟩
    · intro ev hev
      simp only [advance_queue, ustats_queue, upi_queue] at hev
      have hsub : ev ∈ s.event_queue := popMin_subset _ _ _ hpope ev hev
      have hle := popMin_le_all _ _ _ hpope ev hsub
      simp only [advance_time]
      exact key_le_time hle
    · intro p hp
      simp only [advance_log, ustats_log, upi_log, List.mem_append,
        List.mem_singleton] at hp
      simp only [advance_time]
      rcases hp with hp | rfl
      · exact le_trans (hl p hp) hct
      · exact le_refl _
    · simp only [advance_log, ustats_log, upi_log, List.map_append]
      refine List.pairwise_append.mpr ⟨hs, List.pairwise_singleton _ _, ?_⟩
      intro a ha b hb
      simp only [List.map_cons, List.map_nil, List.mem_singleton] at hb
      subst hb
      simp only [List.mem_map] at ha
      obtain ⟨p, hp, rfl⟩ := ha
      exact le_trans (hl p hp) hct
  · intro s e rest hpope _ h
    obtain ⟨hcfg, hq, hl, hs⟩ := h
    refine ⟨hcfg, ?_, hl, hs⟩
    intro ev hev
    exact hq ev (popMin_subset _ _ _ hpope ev hev)
  · exact order_step F cfg hd hI

/-- C2 (amended): events carry no insertion sequence number; instead
the queue key is the full Python tuple `(timestamp, event-type string,
payload)`.  Dispatch timestamps are nondecreasing over any run (given
the nonnegative delays the random library guarantees); a pop returns an
event no later than everything left in the queue, with exact-timestamp
ties broken by the event-type string rank (which coincides with Python
string order on the four type names), not by insertion order; and
comparing two entries tied on timestamp and type with distinct payload
dicts is undefined (`TypeError`). -/
theorem event_order_time_then_type (F : MathFns) (amb : ℕ)
    (variates : ℤ → ℕ → ℚ) (cfg : Config) (fuel : ℕ)
    (hd : ∀ i, 0 ≤ variates cfg.SEED i) (hI : 0 ≤ cfg.PRICE_ADJUST_INTERVAL) :
    ((run F amb variates cfg fuel).elim True fun s =>
      List.Sorted (· ≤ ·) (s.dispatch_log.map Prod.fst)) ∧
    (∀ (q : List Event) (e : Event) (q' : List Event),
      popMin q = some (e, q') → ∀ x ∈ q',
        e.time < x.time ∨
        (e.time = x.time ∧ typeRank e.etype ≤ typeRank x.etype)) ∧
    (∀ t u : EventType, typeRank t < typeRank u ↔ typeStr t < typeStr u) ∧
    pyLt ⟨10, .PLAYER_DEPARTURE, some 0⟩ ⟨10, .PLAYER_DEPARTURE, some 1⟩ = none := by
  refine ⟨?_, ?_, ?_, by decide⟩
  · cases hr : run F amb variates cfg fuel with
    | none => exact trivial
    | some sEnd =>
      obtain ⟨sL, hsl, rfl⟩ := run_some_of hr
      have hstart : (startState cfg).config = cfg ∧ OrderInv (startState cfg) := by
        refine ⟨by simp, ?_, ?_, ?_⟩
        · intro ev hev
          rcases startState_queue_time cfg ev hev with h0 | h0 <;>
            simp [h0, hI]
        · intro p hp
          simp at hp
        · simp
      have hL := order_simLoop F cfg hd hI fuel _ _ hsl hstart
      show List.Sorted (· ≤ ·) ((update_stats F sL).dispatch_log.map Prod.fst)
      rw [ustats_log]
      exact hL.2.2.2
  · intro q e q' hpope x hx
    have hk := popMin_le_all _ _ _ hpope x (popMin_subset _ _ _ hpope x hx)
    rcases lt_or_eq_of_le (key_le_time hk) with h | h
    · exact Or.inl h
    · exact Or.inr ⟨h, key_tie_rank hk h⟩
  · intro t u
    cases t <;> cases u <;> simp [typeRank, typeStr] <;> decide

theorem event_order_time_then_type_witness :
    ((∀ i, (0 : ℚ) ≤ (fun (_ : ℤ) (_ : ℕ) => (1 : ℚ)) baseConfig.SEED i) ∧
      (0 : ℚ) ≤ baseConfig.PRICE_ADJUST_INTERVAL) ∧
    ((run baseFns 0 (fun _ _ => 1) baseConfig 3).elim True fun s =>
      List.Sorted (· ≤ ·) (s.dispatch_log.map Prod.fst)) :=
  ⟨⟨fun _ => by norm_num, by norm_num [baseConfig]⟩,
    (event_order_time_then_type baseFns 0 (fun _ _ => 1) baseConfig 3
      (fun _ => by norm_num) (by norm_num [baseConfig])).1⟩

lemma horizon_simLoop (F : MathFns) (draws : ℕ → ℚ) (cfg : Config) :
    ∀ (fuel : ℕ) (s s' : SimState), simLoop F draws fuel s = some s' →
      (s.config = cfg ∧ HorizonInv s) → (s'.config = cfg ∧ HorizonInv s') := by
  refine simLoop_ind F draws (fun s => s.config = cfg ∧ HorizonInv s) ?_ ?_ ?_
  · intro s e rest _ hts h
    refine ⟨by simp [h.1], ?_⟩
    intro p hp
    simp only [advance_log, ustats_log, upi_log, List.mem_append,
      List.mem_singleton] at hp
    have hcc : (advanceClock e (update_stats F
        (update_player_integrals { s with event_queue := rest }))).config =
        s.config := by simp
    rcases hp with hp | rfl
    · rw [hcc]
      exact h.2 p hp
    · rw [hcc]
      exact not_lt.mp hts
  · intro s e rest _ _ h
    exact ⟨h.1, fun p hp => h.2 p hp⟩
  · intro e s s' hh h
    have hc' := config_constant_step F draws e s s' hh
    obtain ⟨-, hl'⟩ := processEvent_time_log F draws e s s' hh
    refine ⟨by rw [hc', h.1], ?_⟩
    intro p hp
    rw [hl'] at hp
    rw [hc']
    exact h.2 p hp

/-- C10 (amended): the arrival and price-adjustment handlers schedule
their next event unconditionally, without a horizon check (see the
counterexample), but the main loop stops at the first popped event
whose timestamp exceeds the horizon, so no event beyond the horizon is
ever dispatched. -/
theorem no_dispatch_beyond_horizon (F : MathFns) (amb : ℕ)
    (variates : ℤ → ℕ → ℚ) (cfg : Config) (fuel : ℕ) :
    (run F amb variates cfg fuel).elim True fun s =>
      ∀ p ∈ s.dispatch_log, p.1 ≤ cfg.SIM_MAX_TIME := by
  cases hr : run F amb variates cfg fuel with
  | none => exact trivial
  | some sEnd =>
    obtain ⟨sL, hsl, rfl⟩ := run_some_of hr
    have hstart : (startState cfg).config = cfg ∧ HorizonInv (startState cfg) := by
      refine ⟨by simp, ?_⟩
      intro p hp
      simp at hp
    have hL := horizon_simLoop F (variates cfg.SEED) cfg fuel _ _ hsl hstart
    intro p hp
    rw [ustats_log] at hp
    have := hL.2 p hp
    rw [hL.1] at this
    exact this

/-- C9: two executions of `run` with the same configuration (hence the
same seed) produce identical states — in particular identical time
series — and identical summary statistics, whatever the position of the
process-global random generator was beforehand, because `run` starts by
reseeding from the configured seed. -/
theorem run_deterministic_for_seed (F : MathFns) (variates : ℤ → ℕ → ℚ)
    (cfg : Config) (fuel : ℕ) (amb₁ amb₂ : ℕ) :
    run F amb₁ variates cfg fuel = run F amb₂ variates cfg fuel ∧
    ((run F amb₁ variates cfg fuel).map fun s => s.stats_player_count) =
      ((run F amb₂ variates cfg fuel).map fun s => s.stats_player_count) ∧
    ((run F amb₁ variates cfg fuel).map fun s => s.stats_utilization) =
      ((run F amb₂ variates cfg fuel).map fun s => s.stats_utilization) ∧
    ((run F amb₁ variates cfg fuel).map fun s => s.stats_avg_bid) =
      ((run F amb₂ variates cfg fuel).map fun s => s.stats_avg_bid) ∧
    ((run F amb₁ variates cfg fuel).map fun s => s.stats_social_welfare) =
      ((run F amb₂ variates cfg fuel).map fun s => s.stats_social_welfare) ∧
    ((run F amb₁ variates cfg fuel).map fun s => s.stats_avg_utility_timeseries) =
      ((run F amb₂ variates cfg fuel).map fun s => s.stats_avg_utility_timeseries) ∧
    ((run F amb₁ variates cfg fuel).map fun s => s.stats_price) =
      ((run F amb₂ variates cfg fuel).map fun s => s.stats_price) ∧
    ((run F amb₁ variates cfg fuel).bind (get_summary_stats F)) =
      ((run F amb₂ variates cfg fuel).bind (get_summary_stats F)) := by
  have h : run F amb₁ variates cfg fuel = run F amb₂ variates cfg fuel := rfl
  exact ⟨h, by rw [h], by rw [h], by rw [h], by rw [h], by rw [h], by rw [h], by rw [h]⟩

end Kelly
